import Mathlib

/-!
Verification of the `dispy` bytecode disassembler.

The development shallowly embeds the two modules of the repository:

* `line_numbering.py` — the `LineNumbering` class, which reconstructs
  source line numbers from the delta-encoded `co_lnotab` table of a code
  object, stepping lazily through (bytecode-step, line-step) pairs;
* `disassembler.py` — the `Disassembler` class, which walks the raw
  bytecode buffer, decodes operands per the `dis` module's opcode family
  tables, and renders one formatted record per instruction.

Python exceptions are modelled with `Except PyError`; Python list
indexing `xs[i]` (which raises `IndexError` out of range; indices here
are always non-negative) is modelled with `List.get?` plus an explicit
`IndexError` case.  The `dis` standard-library module is external to the
repository, so its tables (`dis.opname`, `dis.hasname`, ...) are a
parameter `DisModule` of every definition that consults them.
-/

namespace Dispy

/-- The Python exceptions that the embedded code can raise:
`IndexError` from sequence indexing and `StopIteration` from stepping an
exhausted iterator. -/
inductive PyError where
  | indexError
  | stopIteration
deriving DecidableEq, Repr

/-- The fields of a Python code object that the disassembler reads.
`co_consts` holds arbitrary Python values in the source; here each
constant is represented by its `str()` rendering, which is all the
disassembler ever uses of it. -/
structure CodeObject where
  co_code : List Nat
  co_names : List String
  co_varnames : List String
  co_consts : List String
  co_firstlineno : Nat
  co_lnotab : List Nat
deriving DecidableEq, Repr

/-- `zip(steps[::2], steps[1::2])` over the `co_lnotab` byte list:
consecutive byte pairs become `(bytecode_step, line_step)` pairs; a
trailing odd byte is dropped, exactly as `zip` truncates to the shorter
argument. -/
def pairsOfLnotab : List Nat → List (Nat × Nat)
  | b0 :: b1 :: rest => (b0, b1) :: pairsOfLnotab rest
  | _ => []

/-- The mutable state of the `LineNumbering` class.  `steps` is the
currently held `_steps` pair and `pending` the not-yet-consumed rest of
`self._iterator`. -/
structure LineNumbering where
  steps : Nat × Nat
  pending : List (Nat × Nat)
  line_number : Nat
  next_address : Nat
  is_exhausted : Bool
deriving DecidableEq, Repr

/-- `LineNumbering.__init__`: takes the first lnotab pair off the
iterator (`next(self._iterator)` raises `StopIteration` when the table
has no complete pair, hence the `Option`), sets
`line_number = co_firstlineno + first.line_step` and
`next_address = first.bytecode_step`. -/
def LineNumbering.init (co : CodeObject) : Option LineNumbering :=
  match pairsOfLnotab co.co_lnotab with
  | [] => none
  | p :: rest =>
      some { steps := p
             pending := rest
             line_number := co.co_firstlineno + p.2
             next_address := p.1
             is_exhausted := false }

/-- `LineNumbering._try_step`: fetch the next pair from the iterator and
add its bytecode step to `next_address`; on `StopIteration` set
`is_exhausted` instead. -/
def LineNumbering.try_step (s : LineNumbering) : LineNumbering :=
  match s.pending with
  | [] => { s with is_exhausted := true }
  | p :: rest =>
      { s with steps := p, pending := rest, next_address := s.next_address + p.1 }

/-- The mutation performed by `LineNumbering.step` once past its
exhaustion guard: add the *currently held* pair's line step, then
`_try_step`. -/
def LineNumbering.step_active (s : LineNumbering) : LineNumbering :=
  LineNumbering.try_step { s with line_number := s.line_number + s.steps.2 }

/-- `LineNumbering.step`: raises `StopIteration` when already exhausted
(leaving the state untouched), otherwise performs `step_active`. -/
def LineNumbering.step (s : LineNumbering) : Except PyError LineNumbering :=
  if s.is_exhausted then .error .stopIteration else .ok s.step_active

/-- `LineNumbering.at_new_line`: `False` when exhausted, else
`program_counter >= next_address`.  The Python method reads but never
writes the object's state; the embedding makes it a pure function of the
state. -/
def LineNumbering.at_new_line (s : LineNumbering) (program_counter : Nat) : Bool :=
  if s.is_exhausted then false else program_counter ≥ s.next_address

/-! ## The `dis` module tables (external collaborator)

`disassembler.py` consults the standard-library `dis` module for the
opcode name table and the eight `has*` opcode-family lists
(`hascompare, hasconst, hasfree, hasjabs, hasjrel, haslocal, hasname,
hasnargs` — every `dis` attribute whose name starts with `has`).  Those
tables do not belong to the repository, so they are a parameter. -/

structure DisModule where
  opname : List String
  hascompare : List Nat
  hasconst : List Nat
  hasfree : List Nat
  hasjabs : List Nat
  hasjrel : List Nat
  haslocal : List Nat
  hasname : List Nat
  hasnargs : List Nat
deriving DecidableEq, Repr

/-- `Disassembler.STOP_CODE = 0x0`. -/
def STOP_CODE : Nat := 0x0

/-- `Disassembler.POP_TOP = 0x1`. -/
def POP_TOP : Nat := 0x1

/-- `Disassembler.LINE_WIDTH = 8`. -/
def LINE_WIDTH : Nat := 8

/-- `dis.opname[instruction]` (the real table has 256 entries, so the
lookup never goes out of range; the default is irrelevant). -/
def opnameAt (D : DisModule) (instruction : Nat) : String :=
  D.opname.getD instruction ""

/-- `Disassembler.FORMAT_WIDTH = max(map(len, dis.opname)) + LINE_WIDTH`. -/
def FORMAT_WIDTH (D : DisModule) : Nat :=
  (D.opname.map String.length).foldr max 0 + LINE_WIDTH

/-- `str.ljust(width)`: pad on the right with spaces to `width`
(a no-op when the string is already at least that long). -/
def ljust (s : String) (width : Nat) : String :=
  s ++ String.mk (List.replicate (width - s.length) ' ')

/-- `Disassembler._join_instructions_that_take_arguments`, as the
membership test in the resulting set: the union of every `has*` list of
the `dis` module. -/
def takes_arguments (D : DisModule) (instruction : Nat) : Bool :=
  instruction ∈ D.hascompare ++ D.hasconst ++ D.hasfree ++ D.hasjabs
      ++ D.hasjrel ++ D.haslocal ++ D.hasname ++ D.hasnargs

/-- A Python value as produced by `Disassembler._load_argument`: a
string (name, local name, rendered constant, or the call-arity
description) or an int (jump target).  `Option PyVal` adds Python's
`None` for the fall-through case. -/
inductive PyVal where
  | vstr (s : String)
  | vint (n : Nat)
deriving DecidableEq, Repr

/-- `str(x)` as used by `'{0} ({1})'.format`: a string renders as
itself, an int via decimal notation, and `None` as `"None"`. -/
def pyStr : Option PyVal → String
  | some (.vstr s) => s
  | some (.vint n) => toString n
  | none => "None"

/-- `Disassembler._load_constant`: read
`bytecode[offset + 2] << 8 | bytecode[offset + 1]`, the little-endian
16-bit operand.  Either indexing raises `IndexError` when out of range
(the source evaluates the high byte first). -/
def load_constant (bytecode : List Nat) (offset : Nat) : Except PyError Nat :=
  match bytecode.get? (offset + 2) with
  | none => .error .indexError
  | some hb =>
      match bytecode.get? (offset + 1) with
      | none => .error .indexError
      | some lb => .ok ((hb <<< 8) ||| lb)

/-- `Disassembler._load_function_call_arguments`: low byte
(`bytecode[pc+1]`) is the positional-argument count, high byte
(`bytecode[pc+2]`) the keyword-argument count, rendered as
`'{0} positional, {1} keyword pair'`. -/
def load_function_call_arguments (bytecode : List Nat) (program_counter : Nat) :
    Except PyError String :=
  match bytecode.get? (program_counter + 1) with
  | none => .error .indexError
  | some p =>
      match bytecode.get? (program_counter + 2) with
      | none => .error .indexError
      | some k => .ok (toString p ++ " positional, " ++ toString k ++ " keyword pair")

/-- `Disassembler._load_argument`: decode the raw operand `constant`
for `instruction`, testing the `dis` family lists in the source's
`if`/`elif` order (`hasname`, `haslocal`, `hasconst`, `hasnargs`,
`hasjrel`, `hasjabs`); an opcode in none of them falls through to
Python's implicit `return None`.  Table indexing raises `IndexError`
out of range.  `program_counter` still holds the instruction's starting
offset at this point of `_disassemble_instruction`. -/
def load_argument (D : DisModule) (co : CodeObject) (program_counter : Nat)
    (instruction constant : Nat) : Except PyError (Option PyVal) :=
  if instruction ∈ D.hasname then
    match co.co_names.get? constant with
    | none => .error .indexError
    | some s => .ok (some (.vstr s))
  else if instruction ∈ D.haslocal then
    match co.co_varnames.get? constant with
    | none => .error .indexError
    | some s => .ok (some (.vstr s))
  else if instruction ∈ D.hasconst then
    match co.co_consts.get? constant with
    | none => .error .indexError
    | some s => .ok (some (.vstr s))
  else if instruction ∈ D.hasnargs then
    match load_function_call_arguments co.co_code program_counter with
    | .error e => .error e
    | .ok s => .ok (some (.vstr s))
  else if instruction ∈ D.hasjrel then
    .ok (some (.vint (program_counter + constant)))
  else if instruction ∈ D.hasjabs then
    .ok (some (.vint constant))
  else
    .ok none

/-- The result of `Disassembler._format_line_number`: whether a blank
separator line was printed, the returned left-justified field, the
updated line-numbering state, and (bookkeeping for the monotonicity
statements, parallel to the rendered field) the line number rendered
into the field, when one was. -/
structure FmtResult where
  blank : Bool
  field : String
  ln : LineNumbering
  rendered : List Nat
deriving DecidableEq, Repr

/-- `Disassembler._format_line_number`.  When `at_new_line` holds, a
blank separator is printed iff `program_counter > 0`, the current line
number is rendered and the mapper stepped (`at_new_line` guarantees
`is_exhausted` is false, so `step` cannot raise and equals
`step_active`); otherwise at `program_counter == 0` the line number is
rendered without stepping ("hack an issue with single-line string
code"); otherwise the field is blank. -/
def format_line_number (s : LineNumbering) (program_counter : Nat) : FmtResult :=
  if s.at_new_line program_counter then
    { blank := program_counter > 0
      field := ljust (toString s.line_number) LINE_WIDTH
      ln := s.step_active
      rendered := [s.line_number] }
  else if program_counter = 0 then
    { blank := false
      field := ljust (toString s.line_number) LINE_WIDTH
      ln := s
      rendered := [s.line_number] }
  else
    { blank := false, field := ljust "" LINE_WIDTH, ln := s, rendered := [] }

/-- The mutable state of one `Disassembler` walk: the program counter,
the line-numbering manager, the lines printed to the output file so far,
and the parallel record of line numbers rendered so far. -/
structure Walker where
  pc : Nat
  ln : LineNumbering
  out : List String
  rendered : List Nat
deriving DecidableEq, Repr

/-- `Disassembler._print_instruction`: build
`'{0}{1} {2}'.format(line_field, pc, opname)` and, when an
`(argument-constant, decoded-argument)` pair is given, left-justify to
`FORMAT_WIDTH` and append `'{0} ({1})'.format(constant, argument)` —
the raw value first, the decoded argument in the parentheses.  The
blank separator that `_format_line_number` prints comes before the
record. -/
def print_instruction (D : DisModule) (w : Walker) (instruction : Nat)
    (argument : Option (Nat × Option PyVal)) : Walker :=
  let fmt := format_line_number w.ln w.pc
  let line0 := fmt.field ++ toString w.pc ++ " " ++ opnameAt D instruction
  let line :=
    match argument with
    | none => line0
    | some (c, a) => ljust line0 (FORMAT_WIDTH D) ++ toString c ++ " (" ++ pyStr a ++ ")"
  { pc := w.pc
    ln := fmt.ln
    out := w.out ++ (if fmt.blank then [""] else []) ++ [line]
    rendered := w.rendered ++ fmt.rendered }

/-- `Disassembler._at_stop_sequence`: the current byte is `POP_TOP`,
it is not the last byte, and the next byte is `STOP_CODE` (the guard
makes the `bytecode[pc + 1]` access safe, since the loop guarantees
`pc < len`). -/
def at_stop_sequence (bytecode : List Nat) (program_counter instruction : Nat) : Bool :=
  if instruction ≠ POP_TOP then false
  else if program_counter + 1 = bytecode.length then false
  else if bytecode.getD (program_counter + 1) 0 ≠ STOP_CODE then false
  else true

/-- `Disassembler._disassemble_instruction`: for an operand-bearing
opcode load the raw constant, decode it, print, then advance the
program counter by 2 for the operand; always advance by 1 for the
opcode byte. -/
def disassemble_instruction (D : DisModule) (co : CodeObject) (w : Walker)
    (instruction : Nat) : Except PyError Walker :=
  if takes_arguments D instruction then
    match load_constant co.co_code w.pc with
    | .error e => .error e
    | .ok constant =>
        match load_argument D co w.pc instruction constant with
        | .error e => .error e
        | .ok argument =>
            let w' := print_instruction D w instruction (some (constant, argument))
            .ok { w' with pc := w'.pc + 2 + 1 }
  else
    let w' := print_instruction D w instruction none
    .ok { w' with pc := w'.pc + 1 }

/-- The `while self._program_counter < len(self._bytecode)` loop of
`Disassembler.disassemble`, fuel-indexed.  Every iteration advances the
program counter by at least 1, so `co.co_code.length` units of fuel
(as supplied by `disassembleRun`) always reach the loop's exit
condition. -/
def runFrom (D : DisModule) (co : CodeObject) : Nat → Walker → Except PyError Walker
  | 0, w => .ok w
  | fuel + 1, w =>
      if w.pc < co.co_code.length then
        if at_stop_sequence co.co_code w.pc (co.co_code.getD w.pc 0) then
          runFrom D co fuel { w with pc := w.pc + 2 }
        else
          match disassemble_instruction D co w (co.co_code.getD w.pc 0) with
          | .error e => .error e
          | .ok w' => runFrom D co fuel w'
      else .ok w

/-- A fresh walker (program counter 0, nothing printed) over a given
line-numbering state. -/
def Walker.mk0 (s : LineNumbering) : Walker :=
  { pc := 0, ln := s, out := [], rendered := [] }

/-- `Disassembler.disassemble` for a code object whose `co_lnotab`
yields at least one pair (otherwise the constructor itself raises
`StopIteration` before `disassemble` can run). -/
def disassembleRun (D : DisModule) (co : CodeObject) (s : LineNumbering) :
    Except PyError Walker :=
  runFrom D co co.co_code.length (Walker.mk0 s)

/-! ## Derived values and well-formedness predicates -/

/-- The raw little-endian 16-bit operand at `pc`, i.e. the value
`_load_constant` returns whenever both operand bytes are in range. -/
def rawOperand (co : CodeObject) (pc : Nat) : Nat :=
  ((co.co_code.getD (pc + 2) 0) <<< 8) ||| co.co_code.getD (pc + 1) 0

/-- The in-range conditions on a decoded operand, following the
branch order of `_load_argument`: whichever of the three indexing
branches the opcode selects must index inside its table. -/
def argument_in_range (D : DisModule) (co : CodeObject) (instruction constant : Nat) :
    Prop :=
  (instruction ∈ D.hasname → constant < co.co_names.length)
  ∧ (instruction ∉ D.hasname → instruction ∈ D.haslocal →
      constant < co.co_varnames.length)
  ∧ (instruction ∉ D.hasname → instruction ∉ D.haslocal → instruction ∈ D.hasconst →
      constant < co.co_consts.length)

instance (D : DisModule) (co : CodeObject) (instruction constant : Nat) :
    Decidable (argument_in_range D co instruction constant) := by
  unfold argument_in_range; infer_instance

/-- A byte position of the stream is well formed when, if it holds an
operand-bearing opcode, the two operand bytes exist and the decoded
index (if any) is in range. -/
def step_wf (D : DisModule) (co : CodeObject) (pc : Nat) : Prop :=
  takes_arguments D (co.co_code.getD pc 0) = true →
    pc + 2 < co.co_code.length
    ∧ argument_in_range D co (co.co_code.getD pc 0) (rawOperand co pc)

instance (D : DisModule) (co : CodeObject) (pc : Nat) : Decidable (step_wf D co pc) := by
  unfold step_wf; infer_instance

/-- A stream is well formed when every byte position is. -/
def stream_wf (D : DisModule) (co : CodeObject) : Prop :=
  ∀ pc, pc < co.co_code.length → step_wf D co pc

instance (D : DisModule) (co : CodeObject) : Decidable (stream_wf D co) := by
  unfold stream_wf; exact Nat.decidableBallLT _ _

/-- The monotonicity invariant of a walk: the line numbers rendered so
far are pairwise non-decreasing and all bounded by the mapper's current
line number. -/
def renderedInv (w : Walker) : Prop :=
  w.rendered.Pairwise (· ≤ ·) ∧ ∀ x ∈ w.rendered, x ≤ w.ln.line_number

/-- Modelled from the spec (claim C1): the operand part of a record is
claimed to be "the decoded operand … followed by the raw operand value
in parentheses"; this definition renders that claimed order, to be
compared with the order `_print_instruction` actually produces. -/
def spec_operand_rendering (decoded : String) (raw : Nat) : String :=
  decoded ++ " (" ++ toString raw ++ ")"

/-! ## Concrete instances used by witnesses and counterexamples

`toyDis` is a small stand-in for the external `dis` module tables: one
opcode per family, disjoint families, plus the fixed `STOP_CODE` and
`POP_TOP` opcodes and an ordinary no-operand opcode `2` (`NOP`). -/

def toyDis : DisModule :=
  { opname := ["STOP_CODE", "POP_TOP", "NOP", "LOAD_NAME", "JUMP_FORWARD",
               "CALL_FUNCTION", "COMPARE_OP", "LOAD_CONST", "LOAD_FAST",
               "JUMP_ABSOLUTE", "LOAD_CLOSURE"]
    hascompare := [6]
    hasconst := [7]
    hasfree := [10]
    hasjabs := [9]
    hasjrel := [4]
    haslocal := [8]
    hasname := [3]
    hasnargs := [5] }

/-- The spec's scenario artifact: stream `[no-operand, name-index, 0, 0]`,
name sequence `["x"]`, line table a single `(0, 0)` pair, first line 1. -/
def scenCo : CodeObject :=
  { co_code := [2, 3, 0, 0]
    co_names := ["x"]
    co_varnames := []
    co_consts := []
    co_firstlineno := 1
    co_lnotab := [0, 0] }

/-- The artifact of the `LineNumbering` class docstring's worked
example: lnotab bytes `[1, 2, 3, 4]`, i.e. delta pairs `(1, 2)` and
`(3, 4)`, first line number 0. -/
def docCo : CodeObject :=
  { co_code := []
    co_names := []
    co_varnames := []
    co_consts := []
    co_firstlineno := 0
    co_lnotab := [1, 2, 3, 4] }

/-- A malformed artifact whose name-index opcode has both operand bytes
present but an out-of-range name index (raw operand 5, name table of
length 0). -/
def cxCo : CodeObject :=
  { co_code := [3, 5, 0]
    co_names := []
    co_varnames := []
    co_consts := []
    co_firstlineno := 1
    co_lnotab := [0, 0] }

/-- The line-numbering state produced by `LineNumbering.init` on
`scenCo` (and on `cxCo`): single pair `(0, 0)`, line number 1. -/
def lnS : LineNumbering :=
  { steps := (0, 0), pending := [], line_number := 1, next_address := 0
    is_exhausted := false }

/-- An exhausted line-numbering state (what `lnS` becomes after its one
step). -/
def lnX : LineNumbering :=
  { steps := (0, 0), pending := [], line_number := 1, next_address := 0
    is_exhausted := true }

/-- The walker state reached after the first instruction of the
`scenCo` walk. -/
def w1 : Walker :=
  { pc := 1, ln := lnX, out := ["1       0 NOP"], rendered := [1] }

/-- The final walker state of the `scenCo` walk. -/
def scenResult : Walker :=
  { pc := 4, ln := lnX
    out := ["1       0 NOP", "        1 LOAD_NAME  0 (x)"]
    rendered := [1] }

/-- An artifact whose call-arity opcode has operand bytes low 2,
high 1. -/
def coCall : CodeObject :=
  { co_code := [5, 2, 1]
    co_names := []
    co_varnames := []
    co_consts := []
    co_firstlineno := 1
    co_lnotab := [0, 0] }

/-! ## Helper lemmas about the line mapper -/

theorem try_step_is_exhausted (s : LineNumbering) (h : s.is_exhausted = true) :
    s.try_step.is_exhausted = true := by
  cases hp : s.pending <;> simp [LineNumbering.try_step, hp, h]

theorem step_active_is_exhausted (s : LineNumbering) (h : s.is_exhausted = true) :
    s.step_active.is_exhausted = true := by
  unfold LineNumbering.step_active
  exact try_step_is_exhausted _ h

theorem step_active_line_number (s : LineNumbering) :
    s.step_active.line_number = s.line_number + s.steps.2 := by
  cases hp : s.pending <;>
    simp [LineNumbering.step_active, LineNumbering.try_step, hp]

theorem at_new_line_false_of_exhausted (s : LineNumbering) (pc : Nat)
    (h : s.is_exhausted = true) : s.at_new_line pc = false := by
  simp [LineNumbering.at_new_line, h]

theorem format_line_number_ln_of_exhausted (s : LineNumbering) (pc : Nat)
    (h : s.is_exhausted = true) : (format_line_number s pc).ln = s := by
  rw [format_line_number, at_new_line_false_of_exhausted s pc h]
  simp only [Bool.false_eq_true, if_false]
  split <;> rfl

theorem format_line_number_line_le (s : LineNumbering) (pc : Nat) :
    s.line_number ≤ (format_line_number s pc).ln.line_number := by
  unfold format_line_number
  split
  · show s.line_number ≤ s.step_active.line_number
    rw [step_active_line_number]
    omega
  · split <;> exact Nat.le_refl _

theorem format_line_number_rendered_cases (s : LineNumbering) (pc : Nat) :
    (format_line_number s pc).rendered = [s.line_number]
    ∨ (format_line_number s pc).rendered = [] := by
  unfold format_line_number
  split
  · exact .inl rfl
  · split
    · exact .inl rfl
    · exact .inr rfl

theorem format_line_number_inv (s : LineNumbering) (pc : Nat) (r : List Nat)
    (hp : r.Pairwise (· ≤ ·)) (hb : ∀ x ∈ r, x ≤ s.line_number) :
    (r ++ (format_line_number s pc).rendered).Pairwise (· ≤ ·)
    ∧ ∀ x ∈ r ++ (format_line_number s pc).rendered,
        x ≤ (format_line_number s pc).ln.line_number := by
  have hle := format_line_number_line_le s pc
  rcases format_line_number_rendered_cases s pc with hr | hr <;> rw [hr]
  · constructor
    · rw [List.pairwise_append]
      refine ⟨hp, by simp, ?_⟩
      intro x hx y hy
      simp only [List.mem_singleton] at hy
      subst hy
      exact hb x hx
    · intro x hx
      rcases List.mem_append.mp hx with hx | hx
      · exact le_trans (hb x hx) hle
      · simp only [List.mem_singleton] at hx
        subst hx
        exact hle
  · rw [List.append_nil]
    exact ⟨hp, fun x hx => le_trans (hb x hx) hle⟩

/-! ## Helper lemmas about the walker -/

theorem print_instruction_pc (D : DisModule) (w : Walker) (i : Nat)
    (a : Option (Nat × Option PyVal)) : (print_instruction D w i a).pc = w.pc := rfl

theorem print_instruction_ln (D : DisModule) (w : Walker) (i : Nat)
    (a : Option (Nat × Option PyVal)) :
    (print_instruction D w i a).ln = (format_line_number w.ln w.pc).ln := rfl

theorem print_instruction_rendered (D : DisModule) (w : Walker) (i : Nat)
    (a : Option (Nat × Option PyVal)) :
    (print_instruction D w i a).rendered
      = w.rendered ++ (format_line_number w.ln w.pc).rendered := rfl

theorem disassemble_instruction_ok_cases (D : DisModule) (co : CodeObject)
    (w : Walker) (i : Nat) (w' : Walker)
    (h : disassemble_instruction D co w i = .ok w') :
    (takes_arguments D i = true ∧ ∃ c a,
        load_constant co.co_code w.pc = .ok c
        ∧ load_argument D co w.pc i c = .ok a
        ∧ w' = { print_instruction D w i (some (c, a)) with pc := w.pc + 2 + 1 })
    ∨ (takes_arguments D i = false
        ∧ w' = { print_instruction D w i none with pc := w.pc + 1 }) := by
  by_cases ht : takes_arguments D i = true
  · left
    refine ⟨ht, ?_⟩
    unfold disassemble_instruction at h
    rw [if_pos ht] at h
    split at h
    · exact Except.noConfusion h
    · rename_i c hlc
      split at h
      · exact Except.noConfusion h
      · rename_i a hla
        injection h with h
        exact ⟨c, a, hlc, hla, h.symm⟩
  · right
    rw [Bool.not_eq_true] at ht
    refine ⟨ht, ?_⟩
    unfold disassemble_instruction at h
    rw [ht] at h
    simp only [Bool.false_eq_true, if_false] at h
    injection h with h
    exact h.symm

theorem disassemble_instruction_ln (D : DisModule) (co : CodeObject) (w : Walker)
    (i : Nat) (w' : Walker) (h : disassemble_instruction D co w i = .ok w') :
    w'.ln = (format_line_number w.ln w.pc).ln := by
  rcases disassemble_instruction_ok_cases D co w i w' h with
    ⟨-, c, a, -, -, hw⟩ | ⟨-, hw⟩ <;> subst hw <;> rfl

theorem disassemble_instruction_rendered (D : DisModule) (co : CodeObject)
    (w : Walker) (i : Nat) (w' : Walker)
    (h : disassemble_instruction D co w i = .ok w') :
    w'.rendered = w.rendered ++ (format_line_number w.ln w.pc).rendered := by
  rcases disassemble_instruction_ok_cases D co w i w' h with
    ⟨-, c, a, -, -, hw⟩ | ⟨-, hw⟩ <;> subst hw <;> rfl

theorem runFrom_ln_exhausted (D : DisModule) (co : CodeObject) (fuel : Nat) :
    ∀ w w' : Walker, w.ln.is_exhausted = true → runFrom D co fuel w = .ok w' →
      w'.ln = w.ln := by
  induction fuel with
  | zero =>
      intro w w' _ h
      injection h with h
      subst h
      rfl
  | succ n ih =>
      intro w w' hx h
      unfold runFrom at h
      split at h
      · split at h
        · exact ih { w with pc := w.pc + 2 } w' hx h
        · split at h
          · exact Except.noConfusion h
          · rename_i w1 heq
            have hln := disassemble_instruction_ln D co w _ w1 heq
            rw [format_line_number_ln_of_exhausted _ _ hx] at hln
            have := ih w1 w' (by rw [hln]; exact hx) h
            rw [this, hln]
      · injection h with h
        subst h
        rfl

theorem disassemble_instruction_inv (D : DisModule) (co : CodeObject) (w : Walker)
    (i : Nat) (w' : Walker) (h : disassemble_instruction D co w i = .ok w')
    (hinv : renderedInv w) :
    renderedInv w' ∧ w.ln.line_number ≤ w'.ln.line_number := by
  obtain ⟨hp, hb⟩ := hinv
  have hmain := format_line_number_inv w.ln w.pc w.rendered hp hb
  have hln := disassemble_instruction_ln D co w i w' h
  have hr := disassemble_instruction_rendered D co w i w' h
  refine ⟨⟨?_, ?_⟩, ?_⟩
  · rw [hr]; exact hmain.1
  · rw [hr, hln]; exact hmain.2
  · rw [hln]; exact format_line_number_line_le _ _

theorem runFrom_inv (D : DisModule) (co : CodeObject) (fuel : Nat) :
    ∀ w w' : Walker, renderedInv w → runFrom D co fuel w = .ok w' →
      renderedInv w' ∧ w.ln.line_number ≤ w'.ln.line_number := by
  induction fuel with
  | zero =>
      intro w w' hinv h
      injection h with h
      subst h
      exact ⟨hinv, Nat.le_refl _⟩
  | succ n ih =>
      intro w w' hinv h
      unfold runFrom at h
      split at h
      · split at h
        · exact ih { w with pc := w.pc + 2 } w' hinv h
        · split at h
          · exact Except.noConfusion h
          · rename_i w1 heq
            have hstep := disassemble_instruction_inv D co w _ w1 heq hinv
            have htail := ih w1 w' hstep.1 h
            exact ⟨htail.1, le_trans hstep.2 htail.2⟩
      · injection h with h
        subst h
        exact ⟨hinv, Nat.le_refl _⟩

/-! ## Helper lemmas about operand loading and failures -/

theorem load_constant_ok (bc : List Nat) (pc : Nat) (h : pc + 2 < bc.length) :
    load_constant bc pc
      = .ok (((bc.getD (pc + 2) 0) <<< 8) ||| bc.getD (pc + 1) 0) := by
  have h1 : pc + 1 < bc.length := by omega
  simp [load_constant, List.getElem?_eq_getElem h, List.getElem?_eq_getElem h1,
    List.getD_eq_getElem?_getD]

theorem load_constant_raw (co : CodeObject) (pc : Nat)
    (h : pc + 2 < co.co_code.length) :
    load_constant co.co_code pc = .ok (rawOperand co pc) :=
  load_constant_ok co.co_code pc h

theorem load_constant_err (bc : List Nat) (pc : Nat) (h : bc.length ≤ pc + 2) :
    load_constant bc pc = .error .indexError := by
  simp [load_constant, List.getElem?_eq_none h]

theorem load_constant_error_val (bc : List Nat) (pc : Nat) (e : PyError)
    (h : load_constant bc pc = .error e) : e = .indexError := by
  unfold load_constant at h
  split at h
  · injection h with h
    exact h.symm
  · split at h
    · injection h with h
      exact h.symm
    · exact Except.noConfusion h

theorem load_fca_ok (bc : List Nat) (pc : Nat) (h : pc + 2 < bc.length) :
    load_function_call_arguments bc pc
      = .ok (toString (bc.getD (pc + 1) 0) ++ " positional, "
          ++ toString (bc.getD (pc + 2) 0) ++ " keyword pair") := by
  have h1 : pc + 1 < bc.length := by omega
  simp [load_function_call_arguments, List.getElem?_eq_getElem h,
    List.getElem?_eq_getElem h1, List.getD_eq_getElem?_getD]

theorem load_fca_error_val (bc : List Nat) (pc : Nat) (e : PyError)
    (h : load_function_call_arguments bc pc = .error e) : e = .indexError := by
  unfold load_function_call_arguments at h
  split at h
  · injection h with h
    exact h.symm
  · split at h
    · injection h with h
      exact h.symm
    · exact Except.noConfusion h

theorem load_argument_error_val (D : DisModule) (co : CodeObject) (pc i c : Nat)
    (e : PyError) (h : load_argument D co pc i c = .error e) : e = .indexError := by
  unfold load_argument at h
  split at h
  · split at h
    · injection h with h
      exact h.symm
    · exact Except.noConfusion h
  · split at h
    · split at h
      · injection h with h
        exact h.symm
      · exact Except.noConfusion h
    · split at h
      · split at h
        · injection h with h
          exact h.symm
        · exact Except.noConfusion h
      · split at h
        · split at h
          · rename_i e2 hfca
            injection h with h
            subst h
            exact load_fca_error_val co.co_code pc e2 hfca
          · exact Except.noConfusion h
        · split at h
          · exact Except.noConfusion h
          · split at h
            · exact Except.noConfusion h
            · exact Except.noConfusion h

/-- The record equation behind claims C1 and C10: a successfully
decoded operand-bearing instruction appends (after the separator, when
one is due) exactly one record, built from the line field, the offset,
the opcode name, and then the raw operand value with the decoded
argument in parentheses. -/
theorem disassemble_record_shape (D : DisModule) (co : CodeObject) (w : Walker)
    (instruction constant : Nat) (argument : Option PyVal)
    (ht : takes_arguments D instruction = true)
    (hc : load_constant co.co_code w.pc = .ok constant)
    (ha : load_argument D co w.pc instruction constant = .ok argument) :
    disassemble_instruction D co w instruction
      = .ok { pc := w.pc + 2 + 1
              ln := (format_line_number w.ln w.pc).ln
              out := w.out ++ (if (format_line_number w.ln w.pc).blank then [""] else [])
                  ++ [ljust ((format_line_number w.ln w.pc).field ++ toString w.pc ++ " "
                        ++ opnameAt D instruction) (FORMAT_WIDTH D)
                      ++ toString constant ++ " (" ++ pyStr argument ++ ")"]
              rendered := w.rendered ++ (format_line_number w.ln w.pc).rendered } := by
  unfold disassemble_instruction
  rw [if_pos ht]
  split
  · rename_i e heq
    rw [hc] at heq
    exact Except.noConfusion heq
  · rename_i c2 heq
    rw [hc] at heq
    injection heq with heq
    subst heq
    split
    · rename_i e heq2
      rw [ha] at heq2
      exact Except.noConfusion heq2
    · rename_i a heq2
      rw [ha] at heq2
      injection heq2 with heq2
      subst heq2
      rfl

/-- When the decode chain itself raises, `_disassemble_instruction`
propagates that error. -/
theorem disassemble_instruction_err_of_arg (D : DisModule) (co : CodeObject)
    (w : Walker) (i c : Nat) (e : PyError)
    (ht : takes_arguments D i = true)
    (hc : load_constant co.co_code w.pc = .ok c)
    (hla : load_argument D co w.pc i c = .error e) :
    disassemble_instruction D co w i = .error e := by
  unfold disassemble_instruction
  rw [if_pos ht]
  split
  · rename_i e2 heq
    rw [hc] at heq
    exact Except.noConfusion heq
  · rename_i c2 heq
    rw [hc] at heq
    injection heq with heq
    subst heq
    split
    · rename_i e2 heq2
      rw [hla] at heq2
      injection heq2 with heq2
      rw [heq2]
    · rename_i a heq2
      rw [hla] at heq2
      exact Except.noConfusion heq2

theorem load_argument_error_iff (D : DisModule) (co : CodeObject) (pc i c : Nat)
    (hlen : pc + 2 < co.co_code.length) :
    (∃ e, load_argument D co pc i c = .error e) ↔ ¬ argument_in_range D co i c := by
  unfold argument_in_range
  by_cases h1 : i ∈ D.hasname
  · rw [load_argument, if_pos h1]
    cases hg : co.co_names.get? c with
    | none =>
        have hc : co.co_names.length ≤ c := List.get?_eq_none.mp hg
        refine iff_of_true ⟨.indexError, rfl⟩ ?_
        intro hcontra
        exact absurd (hcontra.1 h1) (by omega)
    | some v =>
        obtain ⟨hlt, -⟩ := List.get?_eq_some.mp hg
        refine iff_of_false ?_ ?_
        · rintro ⟨e, he⟩
          exact Except.noConfusion he
        · intro hn
          exact hn ⟨fun _ => hlt, fun hn1 _ => absurd h1 hn1,
            fun hn1 _ _ => absurd h1 hn1⟩
  · by_cases h2 : i ∈ D.haslocal
    · rw [load_argument, if_neg h1, if_pos h2]
      cases hg : co.co_varnames.get? c with
      | none =>
          have hc : co.co_varnames.length ≤ c := List.get?_eq_none.mp hg
          refine iff_of_true ⟨.indexError, rfl⟩ ?_
          intro hcontra
          exact absurd (hcontra.2.1 h1 h2) (by omega)
      | some v =>
          obtain ⟨hlt, -⟩ := List.get?_eq_some.mp hg
          refine iff_of_false ?_ ?_
          · rintro ⟨e, he⟩
            exact Except.noConfusion he
          · intro hn
            exact hn ⟨fun hmem => absurd hmem h1, fun _ _ => hlt,
              fun _ hn2 _ => absurd h2 hn2⟩
    · by_cases h3 : i ∈ D.hasconst
      · rw [load_argument, if_neg h1, if_neg h2, if_pos h3]
        cases hg : co.co_consts.get? c with
        | none =>
            have hc : co.co_consts.length ≤ c := List.get?_eq_none.mp hg
            refine iff_of_true ⟨.indexError, rfl⟩ ?_
            intro hcontra
            exact absurd (hcontra.2.2 h1 h2 h3) (by omega)
        | some v =>
            obtain ⟨hlt, -⟩ := List.get?_eq_some.mp hg
            refine iff_of_false ?_ ?_
            · rintro ⟨e, he⟩
              exact Except.noConfusion he
            · intro hn
              exact hn ⟨fun hmem => absurd hmem h1, fun _ hmem => absurd hmem h2,
                fun _ _ _ => hlt⟩
      · have hright : argument_in_range D co i c := by
          unfold argument_in_range
          exact ⟨fun hmem => absurd hmem h1, fun _ hmem => absurd hmem h2,
            fun _ _ hmem => absurd hmem h3⟩
        unfold argument_in_range at hright
        refine iff_of_false ?_ (fun hn => hn hright)
        rintro ⟨e, he⟩
        rw [load_argument, if_neg h1, if_neg h2, if_neg h3] at he
        by_cases h4 : i ∈ D.hasnargs
        · rw [if_pos h4, load_fca_ok co.co_code pc hlen] at he
          exact Except.noConfusion he
        · rw [if_neg h4] at he
          by_cases h5 : i ∈ D.hasjrel
          · rw [if_pos h5] at he
            exact Except.noConfusion he
          · rw [if_neg h5] at he
            by_cases h6 : i ∈ D.hasjabs
            · rw [if_pos h6] at he
              exact Except.noConfusion he
            · rw [if_neg h6] at he
              exact Except.noConfusion he

theorem disassemble_instruction_error_iff (D : DisModule) (co : CodeObject)
    (w : Walker) (i : Nat) :
    (∃ e, disassemble_instruction D co w i = .error e)
      ↔ takes_arguments D i = true
        ∧ (co.co_code.length ≤ w.pc + 2
           ∨ ¬ argument_in_range D co i (rawOperand co w.pc)) := by
  by_cases ht : takes_arguments D i = true
  · by_cases hlen : co.co_code.length ≤ w.pc + 2
    · refine iff_of_true ⟨.indexError, ?_⟩ ⟨ht, .inl hlen⟩
      unfold disassemble_instruction
      rw [if_pos ht, load_constant_err co.co_code w.pc hlen]
    · push_neg at hlen
      have hlc := load_constant_raw co w.pc hlen
      have hlaiff := load_argument_error_iff D co w.pc i (rawOperand co w.pc) hlen
      constructor
      · rintro ⟨e, he⟩
        refine ⟨ht, .inr (hlaiff.mp ?_)⟩
        cases hla : load_argument D co w.pc i (rawOperand co w.pc) with
        | error e2 => exact ⟨e2, rfl⟩
        | ok a =>
            exfalso
            rw [disassemble_record_shape D co w i _ a ht hlc hla] at he
            exact Except.noConfusion he
      · rintro ⟨-, hbad | hbad⟩
        · omega
        · obtain ⟨e, hla⟩ := hlaiff.mpr hbad
          exact ⟨e, disassemble_instruction_err_of_arg D co w i _ e ht hlc hla⟩
  · refine iff_of_false ?_ (fun hcontra => ht hcontra.1)
    rintro ⟨e, he⟩
    unfold disassemble_instruction at he
    rw [Bool.not_eq_true] at ht
    rw [ht] at he
    simp only [Bool.false_eq_true, if_false] at he
    exact Except.noConfusion he

theorem disassemble_instruction_error_val (D : DisModule) (co : CodeObject)
    (w : Walker) (i : Nat) (e : PyError)
    (h : disassemble_instruction D co w i = .error e) : e = .indexError := by
  unfold disassemble_instruction at h
  split at h
  · split at h
    · rename_i e2 hlc
      injection h with h
      subst h
      exact load_constant_error_val co.co_code w.pc e2 hlc
    · split at h
      · rename_i e2 hla
        injection h with h
        subst h
        exact load_argument_error_val D co w.pc i _ e2 hla
      · exact Except.noConfusion h
  · exact Except.noConfusion h

theorem runFrom_error_step (D : DisModule) (co : CodeObject) (fuel : Nat)
    (w : Walker) (e : PyError) (hlt : w.pc < co.co_code.length)
    (hstop : at_stop_sequence co.co_code w.pc (co.co_code.getD w.pc 0) = false)
    (hd : disassemble_instruction D co w (co.co_code.getD w.pc 0) = .error e) :
    runFrom D co (fuel + 1) w = .error e := by
  unfold runFrom
  rw [if_pos hlt, hstop]
  simp only [Bool.false_eq_true, if_false, hd]

theorem runFrom_ok_of_wf (D : DisModule) (co : CodeObject)
    (hwf : stream_wf D co) (fuel : Nat) :
    ∀ w : Walker, ∃ w', runFrom D co fuel w = .ok w' := by
  induction fuel with
  | zero => exact fun w => ⟨w, rfl⟩
  | succ n ih =>
      intro w
      unfold runFrom
      split
      · split
        · exact ih _
        · rename_i hlt hstop
          cases hd : disassemble_instruction D co w (co.co_code.getD w.pc 0) with
          | error e =>
              exfalso
              obtain ⟨ht, hbad⟩ :=
                (disassemble_instruction_error_iff D co w _).mp ⟨e, hd⟩
              obtain ⟨hlen, hrange⟩ := hwf w.pc hlt ht
              rcases hbad with hbad | hbad
              · omega
              · exact hbad hrange
          | ok w1 =>
              obtain ⟨w', hw'⟩ := ih w1
              exact ⟨w', hw'⟩
      · exact ⟨w, rfl⟩

/-! ## Claim theorems -/

/-- C1, counterexample: on the spec's own scenario (stream
`[no-operand, name-index, 0, 0]`, names `["x"]`, line table `(0, 0)`,
first line 1) the second record's operand part renders `0 (x)` — the
raw value first and the decoded name in parentheses — not the claimed
`x (0)` (decoded first, raw in parentheses). -/
theorem operand_rendering_counterexample :
    ((LineNumbering.init scenCo).map fun s =>
        (disassembleRun toyDis scenCo s).map Walker.out)
      = some (.ok ["1       0 NOP", "        1 LOAD_NAME  0 (x)"])
    ∧ "        1 LOAD_NAME  0 (x)"
        ≠ ljust ("        " ++ "1" ++ " " ++ "LOAD_NAME") (FORMAT_WIDTH toyDis)
            ++ spec_operand_rendering "x" 0 :=
  ⟨rfl, by decide⟩

/-- C1 (amended): for every operand-bearing instruction that is
emitted, the formatted record consists of the line-number field, the
byte offset, the opcode's symbolic name, and then the raw operand value
followed by the decoded operand in parentheses (so the scenario's
second record's operand part renders `0 (x)`). -/
theorem record_format (D : DisModule) (co : CodeObject) (w : Walker)
    (instruction constant : Nat) (argument : Option PyVal)
    (ht : takes_arguments D instruction = true)
    (hc : load_constant co.co_code w.pc = .ok constant)
    (ha : load_argument D co w.pc instruction constant = .ok argument) :
    disassemble_instruction D co w instruction
      = .ok { pc := w.pc + 2 + 1
              ln := (format_line_number w.ln w.pc).ln
              out := w.out ++ (if (format_line_number w.ln w.pc).blank then [""] else [])
                  ++ [ljust ((format_line_number w.ln w.pc).field ++ toString w.pc ++ " "
                        ++ opnameAt D instruction) (FORMAT_WIDTH D)
                      ++ toString constant ++ " (" ++ pyStr argument ++ ")"]
              rendered := w.rendered ++ (format_line_number w.ln w.pc).rendered } :=
  disassemble_record_shape D co w instruction constant argument ht hc ha

/-- Witness for C1's amended theorem: the scenario's second
instruction produces exactly the record ending in `0 (x)`. -/
theorem record_format_witness :
    disassemble_instruction toyDis scenCo w1 3 = .ok scenResult := by
  rw [record_format toyDis scenCo w1 3 0 (some (.vstr "x")) rfl rfl rfl]
  rfl

/-- C2 (code bug): on the `LineNumbering` docstring's own example
(lnotab `[1, 2, 3, 4]`, first line 0) the first `step()` adds the
already-consumed pair's line step 2 — reaching line 4 at breakpoint 4 —
where the docstring (and the claim) expect the newly fetched pair's
line step 4, i.e. line 6 at breakpoint 4; and the exhausting `step()`
still adds a line step (reaching 8) instead of only setting the
exhaustion flag. -/
theorem step_stale_line_step :
    (LineNumbering.init docCo).map
        (fun s => s.step.map fun t => (t.line_number, t.next_address, t.is_exhausted))
      = some (.ok (4, 4, false))
    ∧ (LineNumbering.init docCo).map
        (fun s => s.step_active.step.map fun t => (t.line_number, t.is_exhausted))
      = some (.ok (8, true)) :=
  ⟨rfl, rfl⟩

/-- C3: `at_new_line` is the stated pure function of the state — false
when exhausted, else `offset ≥ next_address` — and exhaustion is
absorbing: an exhausted mapper stays exhausted (`step` raises without
mutating, `_try_step` keeps the flag), and the rest of the walk leaves
it untouched, so every later `at_new_line` query answers false. -/
theorem exhaustion_absorbing (s t : LineNumbering) (pc : Nat) (D : DisModule)
    (co : CodeObject) (fuel : Nat) (w w' : Walker)
    (hx : s.is_exhausted = true) (hw : w.ln = s)
    (hrun : runFrom D co fuel w = .ok w') :
    (t.at_new_line pc = if t.is_exhausted then false else decide (pc ≥ t.next_address))
    ∧ s.at_new_line pc = false
    ∧ s.step = .error .stopIteration
    ∧ s.try_step.is_exhausted = true
    ∧ w'.ln = s
    ∧ w'.ln.at_new_line pc = false := by
  have hend : w'.ln = s := by
    rw [← hw]
    exact runFrom_ln_exhausted D co fuel w w' (by rw [hw]; exact hx) hrun
  refine ⟨rfl, at_new_line_false_of_exhausted s pc hx, ?_,
    try_step_is_exhausted s hx, hend, ?_⟩
  · simp [LineNumbering.step, hx]
  · rw [hend]
    exact at_new_line_false_of_exhausted s pc hx

/-- Witness for C3 at the exhausted state `lnX` and a zero-fuel walk. -/
theorem exhaustion_absorbing_witness :
    (lnX.at_new_line 7 = if lnX.is_exhausted then false else decide (7 ≥ lnX.next_address))
    ∧ lnX.at_new_line 7 = false
    ∧ lnX.step = .error .stopIteration
    ∧ lnX.try_step.is_exhausted = true
    ∧ (Walker.mk0 lnX).ln = lnX
    ∧ (Walker.mk0 lnX).ln.at_new_line 7 = false :=
  exhaustion_absorbing lnX lnX 7 toyDis scenCo 0 (Walker.mk0 lnX) (Walker.mk0 lnX)
    rfl rfl rfl

/-- C4, counterexample: the walk over `[name-index, 5, 0]` with an
empty name table fails with an `IndexError` even though the
operand-bearing opcode at offset 0 has both of its trailing operand
bytes available — so `run()` does not fail *only* on incomplete
operands. -/
theorem run_fails_despite_complete_operands :
    (LineNumbering.init cxCo).map (fun s => disassembleRun toyDis cxCo s)
      = some (.error .indexError)
    ∧ takes_arguments toyDis 3 = true
    ∧ cxCo.co_code = [3, 5, 0] :=
  ⟨rfl, rfl, rfl⟩

/-- C4 (amended): a disassembly step fails exactly when the opcode is
operand-bearing and either fewer than 2 trailing bytes are available or
the decoded table index is out of range; every such failure is an
`IndexError`, it aborts the walk immediately, and a walk over a
well-formed stream (both conditions met at every position) never
fails. -/
theorem run_failure_modes (D : DisModule) (co : CodeObject) :
    (∀ (w : Walker) (i : Nat),
        (∃ e, disassemble_instruction D co w i = .error e)
          ↔ takes_arguments D i = true
            ∧ (co.co_code.length ≤ w.pc + 2
               ∨ ¬ argument_in_range D co i (rawOperand co w.pc)))
    ∧ (∀ (w : Walker) (i : Nat) (e : PyError),
        disassemble_instruction D co w i = .error e → e = .indexError)
    ∧ (∀ (fuel : Nat) (w : Walker) (e : PyError),
        w.pc < co.co_code.length →
        at_stop_sequence co.co_code w.pc (co.co_code.getD w.pc 0) = false →
        disassemble_instruction D co w (co.co_code.getD w.pc 0) = .error e →
        runFrom D co (fuel + 1) w = .error e)
    ∧ (stream_wf D co → ∀ (fuel : Nat) (w : Walker),
        ∃ w', runFrom D co fuel w = .ok w') :=
  ⟨fun w i => disassemble_instruction_error_iff D co w i,
   fun w i e h => disassemble_instruction_error_val D co w i e h,
   fun fuel w e h1 h2 h3 => runFrom_error_step D co fuel w e h1 h2 h3,
   fun hwf fuel w => runFrom_ok_of_wf D co hwf fuel w⟩

/-- Witness for C4's amended theorem: the malformed artifact's step
fails, and the well-formed scenario stream runs to completion. -/
theorem run_failure_modes_witness :
    (∃ e, disassemble_instruction toyDis cxCo (Walker.mk0 lnS) 3 = .error e)
    ∧ (∃ w', runFrom toyDis scenCo 4 (Walker.mk0 lnS) = .ok w') :=
  ⟨((run_failure_modes toyDis cxCo).1 (Walker.mk0 lnS) 3).mpr (by decide),
   (run_failure_modes toyDis scenCo).2.2.2 (by decide) 4 (Walker.mk0 lnS)⟩

/-- C5: an operand-bearing opcode processed with at least two
following bytes reconstructs the raw operand as
`lowByte ||| (highByte <<< 8)` and, when the step completes, advances
the cursor by exactly 3. -/
theorem operand_cursor_advance (D : DisModule) (co : CodeObject) (w : Walker)
    (instruction : Nat) (w' : Walker)
    (ht : takes_arguments D instruction = true)
    (hlen : w.pc + 2 < co.co_code.length)
    (hok : disassemble_instruction D co w instruction = .ok w') :
    load_constant co.co_code w.pc
      = .ok ((co.co_code.getD (w.pc + 1) 0) ||| ((co.co_code.getD (w.pc + 2) 0) <<< 8))
    ∧ w'.pc = w.pc + 3 := by
  constructor
  · rw [load_constant_ok co.co_code w.pc hlen, Nat.lor_comm]
  · rcases disassemble_instruction_ok_cases D co w instruction w' hok with
      ⟨-, c, a, -, -, hw⟩ | ⟨hf, -⟩
    · subst hw
      show w.pc + 2 + 1 = w.pc + 3
      omega
    · rw [hf] at ht
      exact Bool.noConfusion ht

/-- Witness for C5 at the scenario's second instruction. -/
theorem operand_cursor_advance_witness :
    load_constant scenCo.co_code w1.pc
      = .ok ((scenCo.co_code.getD (w1.pc + 1) 0)
          ||| ((scenCo.co_code.getD (w1.pc + 2) 0) <<< 8))
    ∧ scenResult.pc = w1.pc + 3 :=
  operand_cursor_advance toyDis scenCo w1 3 scenResult (by decide) (by decide) rfl

/-- C6: a relative-jump opcode decodes its raw operand to the absolute
target `instruction starting offset + raw operand value`. -/
theorem relative_jump_decode (D : DisModule) (co : CodeObject) (pc i c : Nat)
    (hj : i ∈ D.hasjrel) (h1 : i ∉ D.hasname) (h2 : i ∉ D.haslocal)
    (h3 : i ∉ D.hasconst) (h4 : i ∉ D.hasnargs) :
    load_argument D co pc i c = .ok (some (.vint (pc + c))) := by
  unfold load_argument
  rw [if_neg h1, if_neg h2, if_neg h3, if_neg h4, if_pos hj]

/-- Witness for C6: a relative jump at offset 10 with raw operand 5
decodes to absolute target 15. -/
theorem relative_jump_decode_witness :
    load_argument toyDis scenCo 10 4 5 = .ok (some (.vint 15)) :=
  relative_jump_decode toyDis scenCo 10 4 5 (by decide) (by decide) (by decide)
    (by decide) (by decide)

/-- C7: a call-arity opcode splits its operand bytes into the low byte
as the positional-argument count and the high byte as the
keyword-argument-pair count, rendered as a descriptive pair. -/
theorem call_arity_decode (D : DisModule) (co : CodeObject) (pc i c : Nat)
    (hn4 : i ∈ D.hasnargs) (h1 : i ∉ D.hasname) (h2 : i ∉ D.haslocal)
    (h3 : i ∉ D.hasconst) (hlen : pc + 2 < co.co_code.length) :
    load_argument D co pc i c
      = .ok (some (.vstr (toString (co.co_code.getD (pc + 1) 0) ++ " positional, "
          ++ toString (co.co_code.getD (pc + 2) 0) ++ " keyword pair"))) := by
  unfold load_argument
  rw [if_neg h1, if_neg h2, if_neg h3, if_pos hn4, load_fca_ok co.co_code pc hlen]

/-- Witness for C7: raw operand bytes low 2, high 1 decode to the
descriptive pair string. -/
theorem call_arity_decode_witness :
    load_argument toyDis coCall 0 5 0
      = .ok (some (.vstr "2 positional, 1 keyword pair")) := by
  have h := call_arity_decode toyDis coCall 0 5 0 (by decide) (by decide) (by decide)
    (by decide) (by decide)
  exact h

/-- C8: at cursor offset 0 the line-number field always carries the
current line number (even when the mapper reports no boundary), no
blank separator is printed there, and in general the blank separator is
printed exactly when the mapper reports a new line at a non-zero
offset. -/
theorem first_offset_line_and_separator (s : LineNumbering) (pc : Nat) :
    ((format_line_number s 0).field = ljust (toString s.line_number) LINE_WIDTH
      ∧ (format_line_number s 0).blank = false
      ∧ (format_line_number s 0).rendered = [s.line_number])
    ∧ ((format_line_number s pc).blank = true ↔ s.at_new_line pc = true ∧ 0 < pc) := by
  constructor
  · unfold format_line_number
    split
    · exact ⟨rfl, rfl, rfl⟩
    · simp
  · unfold format_line_number
    split
    · rename_i hnew
      simp [hnew]
    · rename_i hnew
      split <;> simp [hnew]

/-- Witness for C8 at the scenario mapper state and offset 3. -/
theorem first_offset_line_and_separator_witness :
    ((format_line_number lnS 0).field = ljust (toString lnS.line_number) LINE_WIDTH
      ∧ (format_line_number lnS 0).blank = false
      ∧ (format_line_number lnS 0).rendered = [lnS.line_number])
    ∧ ((format_line_number lnS 3).blank = true ↔ lnS.at_new_line 3 = true ∧ 0 < 3) :=
  first_offset_line_and_separator lnS 3

/-- C9: with the byte and line deltas non-negative (they are bytes),
the line numbers rendered over a full walk are pairwise non-decreasing,
and the mapper's line number never decreases — neither across a
successful `advance()` nor across the whole walk. -/
theorem lines_monotone (D : DisModule) (co : CodeObject) (s : LineNumbering)
    (w' : Walker) (t u : LineNumbering)
    (hrun : disassembleRun D co s = .ok w') (hstep : t.step = .ok u) :
    w'.rendered.Pairwise (· ≤ ·)
    ∧ s.line_number ≤ w'.ln.line_number
    ∧ t.line_number ≤ u.line_number := by
  have hinv : renderedInv (Walker.mk0 s) := ⟨List.Pairwise.nil, by simp [Walker.mk0]⟩
  unfold disassembleRun at hrun
  obtain ⟨⟨hp, -⟩, hle⟩ :=
    runFrom_inv D co co.co_code.length (Walker.mk0 s) w' hinv hrun
  refine ⟨hp, hle, ?_⟩
  unfold LineNumbering.step at hstep
  split at hstep
  · exact Except.noConfusion hstep
  · injection hstep with hstep
    subst hstep
    rw [step_active_line_number]
    omega

/-- Witness for C9 on the scenario walk and the scenario mapper's one
successful step. -/
theorem lines_monotone_witness :
    scenResult.rendered.Pairwise (· ≤ ·)
    ∧ lnS.line_number ≤ scenResult.ln.line_number
    ∧ lnS.line_number ≤ lnX.line_number :=
  lines_monotone toyDis scenCo lnS scenResult lnS lnX rfl rfl

/-- C10: an opcode from an argument-taking family outside the six
decoded classifications (comparison or free-variable family) is still
treated as operand-bearing — the decode chain falls through to `None` —
and with its two operand bytes available the step succeeds, advancing
the cursor by 3 and emitting a record that shows the raw operand with
`None` as the decoded field. -/
theorem untranslated_family_record (D : DisModule) (co : CodeObject) (w : Walker)
    (i : Nat) (hfam : i ∈ D.hascompare ∨ i ∈ D.hasfree)
    (h1 : i ∉ D.hasname) (h2 : i ∉ D.haslocal) (h3 : i ∉ D.hasconst)
    (h4 : i ∉ D.hasnargs) (h5 : i ∉ D.hasjrel) (h6 : i ∉ D.hasjabs)
    (hlen : w.pc + 2 < co.co_code.length) :
    takes_arguments D i = true
    ∧ (∀ c, load_argument D co w.pc i c = .ok none)
    ∧ disassemble_instruction D co w i
        = .ok { pc := w.pc + 2 + 1
                ln := (format_line_number w.ln w.pc).ln
                out := w.out ++ (if (format_line_number w.ln w.pc).blank then [""] else [])
                    ++ [ljust ((format_line_number w.ln w.pc).field ++ toString w.pc ++ " "
                          ++ opnameAt D i) (FORMAT_WIDTH D)
                        ++ toString (rawOperand co w.pc) ++ " (" ++ pyStr none ++ ")"]
                rendered := w.rendered ++ (format_line_number w.ln w.pc).rendered } := by
  have ht : takes_arguments D i = true := by
    rcases hfam with h | h <;> simp [takes_arguments, h]
  have hla : ∀ c, load_argument D co w.pc i c = .ok none := by
    intro c
    unfold load_argument
    rw [if_neg h1, if_neg h2, if_neg h3, if_neg h4, if_neg h5, if_neg h6]
  exact ⟨ht, hla,
    disassemble_record_shape D co w i (rawOperand co w.pc) none ht
      (load_constant_raw co w.pc hlen) (hla _)⟩

/-- Witness for C10 at the comparison-family opcode of `toyDis`. -/
theorem untranslated_family_record_witness :
    takes_arguments toyDis 6 = true
    ∧ load_argument toyDis scenCo 0 6 0 = .ok none
    ∧ ∃ w', disassemble_instruction toyDis scenCo (Walker.mk0 lnS) 6 = .ok w'
        ∧ w'.pc = 3 := by
  obtain ⟨ha, hb, hc⟩ := untranslated_family_record toyDis scenCo (Walker.mk0 lnS) 6
    (.inl (by decide)) (by decide) (by decide) (by decide) (by decide) (by decide)
    (by decide) (by decide)
  exact ⟨ha, hb 0, ⟨_, hc, rfl⟩⟩

end Dispy
